import Mathlib

/-!
Verification of the Arborescence scene/tree model.

This file gives a shallow embedding of the two core subsystems of the
repository (the `Tree` growth structure in `tree.cpp` and the `World`
scene orchestrator in `world.cpp`), translated from the C++ source, and
proves or refutes the stated properties about them.

Modelling conventions:
* Machine integers (`uint_fast8_t`, `uint_fast16_t`, `int32_t`) are modelled
  as `ℕ` / `ℤ`.  In every reachable program state the relevant counters stay
  far below any wrap point (tree age never exceeds 81 because the `World`
  deletes a dead tree on the very tick it dies; time-of-day stays ≤ 3600),
  so unbounded integers are a faithful model of the reachable behaviour.
* The hardware random-number source `get_rand_32()` is modelled as an
  arbitrary stream `rng : ℕ → ℕ` together with an explicit draw counter `k`:
  the `n`-th draw of a call sequence is `rng (k + n)`.  All invariants are
  proved for every stream, which covers every possible hardware value.
* Floating-point HSV colour snapshots are not given numeric values; the only
  place their values are observed is the colour-equality comparisons in
  `World::render`, which are abstracted as oracle booleans (`gdiff`,
  `sdiff`), universally quantified in every theorem about `render`.
* The sun/moon x-coordinate formulas are modelled over `ℚ` with the value of
  `cos(timeOfDay·π/1800)` abstracted as a parameter `c`; at `timeOfDay = 0`
  the cosine is exactly `1`, even in C `float` arithmetic.
-/

/- ### Compile-time constants, from `arborescence.hpp` -/

def SCREEN_WIDTH : ℕ := 720
def SCREEN_HEIGHT : ℕ := 480
def GROUND_HEIGHT : ℕ := 32
def GROUND_LEVEL : ℕ := SCREEN_HEIGHT - GROUND_HEIGHT - GROUND_HEIGHT
def BRANCHES_MAX : ℕ := 3
def TREES_MAX : ℕ := 8
def AGE_GROWTH : ℕ := 20
def AGE_DEATH : ℕ := 80

/- ### Time of day

`World::update`, world.cpp lines 157-161:
  `if ( ++this->mTimeOfDay > 3600 ) { this->mTimeOfDay = 0; }`
-/

def tStep (t : ℕ) : ℕ := if t + 1 > 3600 then 0 else t + 1

theorem tStep_from_zero (k : ℕ) (hk : k ≤ 3600) : tStep^[k] 0 = k := by
  induction k with
  | zero => rfl
  | succ n ih =>
    rw [Function.iterate_succ_apply', ih (by omega), tStep]
    simp only [gt_iff_lt]
    rw [if_neg (by omega)]

theorem tStep_add (a b : ℕ) (h : a + b ≤ 3600) : tStep^[b] a = a + b := by
  induction b with
  | zero => rfl
  | succ n ih =>
    rw [Function.iterate_succ_apply', ih (by omega), tStep]
    simp only [gt_iff_lt]
    rw [if_neg (by omega)]
    omega

theorem tStep_le (t : ℕ) (h : t ≤ 3600) : tStep t ≤ 3600 := by
  rw [tStep]; split <;> omega

theorem tStep_period (t : ℕ) (h : t ≤ 3600) : tStep^[3601] t = t := by
  have h1 : tStep^[3600 - t] t = 3600 := by
    rw [tStep_add t (3600 - t) (by omega)]; omega
  have h2 : (3601 : ℕ) = t + (1 + (3600 - t)) := by omega
  rw [h2, Function.iterate_add_apply, Function.iterate_add_apply, h1]
  have h3 : tStep^[1] 3600 = 0 := by
    simp [tStep]
  rw [h3, tStep_from_zero t (by omega)]

/- ### Sun and moon x-coordinates

`World::update`, world.cpp lines 221-226.  `c` stands for the value of
`cos(this->mTimeOfDay*3.14159f/1800.0f)`; the claims quantify over every
time of day, hence over every value that cosine term can take.  At
`mTimeOfDay = 0` the term is exactly `1`.

  mSunLocation.x  = ( SCREEN_WIDTH / 2 ) - ( cos(...) * ( ( SCREEN_WIDTH / 2 ) - 16 ) ) - 16
  mMoonLocation.x = ( SCREEN_WIDTH / 2 ) - ( cos(...) * ( ( SCREEN_WIDTH / 2 ) - 16 ) * -1 ) - 16

`mSunLocation` / `mMoonLocation` are integer `Point`s, so the float value of
each expression is converted to an integer coordinate by the assignment: a
C float-to-int conversion, i.e. truncation toward zero, modelled by
`truncZ`.  The rounding of the float cosine and products themselves is not
modelled (the formula value is kept exact in `ℚ`), but the final
truncation — which the stored coordinates observe — is.
-/

/-- Truncation toward zero, the C conversion of a float value to an integer
coordinate: floor for non-negative values, ceiling for negative ones. -/
def truncZ (q : ℚ) : ℤ := if 0 ≤ q then ⌊q⌋ else ⌈q⌉

def sunX (c : ℚ) : ℤ :=
  truncZ (((SCREEN_WIDTH : ℚ) / 2) - c * (((SCREEN_WIDTH : ℚ) / 2) - 16) - 16)

def moonX (c : ℚ) : ℤ :=
  truncZ (((SCREEN_WIDTH : ℚ) / 2) - c * (((SCREEN_WIDTH : ℚ) / 2) - 16) * (-1) - 16)

theorem sunX_eq (c : ℚ) : sunX c = truncZ (344 - 344 * c) := by
  have h : ((SCREEN_WIDTH : ℚ) / 2) - c * (((SCREEN_WIDTH : ℚ) / 2) - 16) - 16 =
      344 - 344 * c := by
    norm_num [SCREEN_WIDTH]
    ring
  rw [sunX, h]

theorem moonX_eq (c : ℚ) : moonX c = truncZ (344 + 344 * c) := by
  have h : ((SCREEN_WIDTH : ℚ) / 2) - c * (((SCREEN_WIDTH : ℚ) / 2) - 16) * (-1) - 16 =
      344 + 344 * c := by
    norm_num [SCREEN_WIDTH]
    ring
  rw [moonX, h]

theorem trunc_mirror_sum (v : ℚ) :
    truncZ (344 - v) + truncZ (344 + v) = 687 ∨
      truncZ (344 - v) + truncZ (344 + v) = 688 := by
  have e1 : (344 : ℚ) - v = -v + ((344 : ℤ) : ℚ) := by push_cast; ring
  have e2 : (344 : ℚ) + v = v + ((344 : ℤ) : ℚ) := by push_cast; ring
  rcases le_or_lt 0 (344 - v) with h1 | h1
  · rcases le_or_lt 0 (344 + v) with h2 | h2
    · rw [truncZ, if_pos h1, truncZ, if_pos h2, e1, e2, Int.floor_add_int,
        Int.floor_add_int]
      rcases eq_or_ne ((⌊v⌋ : ℚ)) v with hv | hv
      · right
        have hfn : ⌊-v⌋ = -⌊v⌋ := by
          conv_lhs => rw [← hv]
          rw [← Int.cast_neg, Int.floor_intCast]
        omega
      · left
        have hlt : (⌊v⌋ : ℚ) < v := lt_of_le_of_ne (Int.floor_le v) hv
        have hc1 : ⌈v⌉ ≤ ⌊v⌋ + 1 := by
          apply Int.ceil_le.mpr
          push_cast
          linarith [Int.lt_floor_add_one v]
        have hc2 : ⌊v⌋ < ⌈v⌉ := Int.lt_ceil.mpr hlt
        have hfn : ⌊-v⌋ = -⌈v⌉ := Int.floor_neg
        omega
    · right
      rw [truncZ, if_pos h1, truncZ, if_neg (not_le.mpr h2), e1, e2,
        Int.floor_add_int, Int.ceil_add_int]
      have hfn : ⌊-v⌋ = -⌈v⌉ := Int.floor_neg
      omega
  · right
    have h2 : (0 : ℚ) ≤ 344 + v := by linarith
    rw [truncZ, if_neg (not_le.mpr h1), truncZ, if_pos h2, e1, e2,
      Int.ceil_add_int, Int.floor_add_int]
    have hcn : ⌈-v⌉ = -⌊v⌋ := Int.ceil_neg
    omega

/-- Claim C3, counterexample: at time-of-day 0 the cosine term is exactly 1
and the stored x-coordinates are 0 and 688, so their sum is 688, not
`SCREEN_WIDTH = 720`; and when the offset `344 * cos(...)` is not an
integer (here the value 344/3) the float-to-int truncation of the two
`Point` assignments makes the sum drop to 687, so the coordinates are not
even exactly symmetric about `SCREEN_WIDTH/2 - 16`. -/
theorem c3_sun_moon_cex :
    sunX 1 + moonX 1 = 688 ∧ sunX 1 + moonX 1 ≠ (SCREEN_WIDTH : ℤ) ∧
      sunX (1 / 3) + moonX (1 / 3) = 687 := by
  have h1 : sunX 1 = 0 := by
    rw [sunX_eq]
    norm_num [truncZ]
  have h2 : moonX 1 = 688 := by
    rw [moonX_eq]
    norm_num [truncZ]
  have h3 : sunX (1 / 3) = 229 := by
    rw [sunX_eq]
    norm_num [truncZ]
  have h4 : moonX (1 / 3) = 458 := by
    rw [moonX_eq]
    norm_num [truncZ]
  rw [h1, h2, h3, h4]
  norm_num [SCREEN_WIDTH]

/-- Claim C3, amended: for every time-of-day (i.e. every value `c` of the
cosine term), the stored integer x-coordinates of the sun and the moon sum
to `SCREEN_WIDTH - 32 = 688` or `SCREEN_WIDTH - 33 = 687` — the formulas
are mirror images about `x = SCREEN_WIDTH/2 - 16` (both subtract the
16-pixel half-sprite offset), but the float-to-int truncation of the two
`Point` assignments loses one pixel whenever `344 * c` is not an integer —
and in particular the sum is never `SCREEN_WIDTH`. -/
theorem c3_sun_moon_amended (c : ℚ) :
    (sunX c + moonX c = 687 ∨ sunX c + moonX c = 688) ∧
      sunX c + moonX c ≠ (SCREEN_WIDTH : ℤ) := by
  rw [sunX_eq, moonX_eq]
  have h := trunc_mirror_sum (344 * c)
  refine ⟨h, ?_⟩
  rcases h with h | h <;> rw [h] <;> norm_num [SCREEN_WIDTH]

/- ### The branch structure, from `tree.hpp` / `tree.cpp`

`branch_t` holds an end-point and `BRANCHES_MAX = 3` nullable child
pointers.  The nullable pointer is modelled by the mutual inductive `BrPtr`
(`null` / `node`), mirroring `branch_t *`.
-/

structure Pt where
  x : ℤ
  y : ℤ
  deriving DecidableEq, Repr

mutual

inductive Branch where
  | mk (ep : Pt) (c0 c1 c2 : BrPtr)
  deriving Repr

inductive BrPtr where
  | null
  | node (b : Branch)
  deriving Repr

end

def BrPtr.isNode : BrPtr → Bool
  | .null => false
  | .node _ => true

def Branch.ep : Branch → Pt
  | .mk p _ _ _ => p

def Branch.slot2 : Branch → BrPtr
  | .mk _ _ _ c2 => c2

def Branch.childCount : Branch → ℕ
  | .mk _ c0 c1 c2 =>
      (cond c0.isNode 1 0) + (cond c1.isNode 1 0) + (cond c2.isNode 1 0)

mutual

/-- All branches of the subtree rooted at a branch, the branch itself
included (the set quantified over by claim C4). -/
def Branch.subs : Branch → List Branch
  | .mk p c0 c1 c2 =>
      .mk p c0 c1 c2 :: (BrPtr.subs c0 ++ BrPtr.subs c1 ++ BrPtr.subs c2)

def BrPtr.subs : BrPtr → List Branch
  | .null => []
  | .node b => Branch.subs b

end

/- ### Branch allocation and growth, `tree.cpp` lines 112-174

`Tree::alloc_branch( pOrigin, pHeight )`:
  new branch, all child slots null,
  end_point.x = pOrigin.x + get_rand_32() % ( 60 / pHeight )
  end_point.y = pOrigin.y - ( SCREEN_HEIGHT / 16 ) / pHeight
                          - get_rand_32() % ( ( SCREEN_HEIGHT / 4 ) / pHeight )
(two RNG draws, at counter positions `k` and `k+1`).
-/

def allocBranch (rng : ℕ → ℕ) (k : ℕ) (o : Pt) (h : ℕ) : Branch :=
  .mk ⟨o.x + (rng k % (60 / h) : ℕ),
       o.y - (SCREEN_HEIGHT / 16 / h : ℕ) - (rng (k + 1) % (SCREEN_HEIGHT / 4 / h) : ℕ)⟩
    .null .null .null

/-- Shift a branch end-point horizontally (the `end_point.x -=` / `+=`
adjustments applied to the two freshly allocated children). -/
def shiftX (b : Branch) (d : ℤ) : Branch :=
  match b with
  | .mk p c0 c1 c2 => .mk ⟨p.x + d, p.y⟩ c0 c1 c2

/-- Result of a growth pass: the rewritten branch (or pointer), the RNG draw
counter, the tree height field `mHeight`, and — as instrumentation for claim
C8 — the list of `pHeight` values passed to `alloc_branch`. -/
structure GRes (α : Type) where
  val : α
  k : ℕ
  ht : ℕ
  tr : List ℕ

mutual

/-- Translation of `Tree::grow_branch( pBranch, pHeight )`, tree.cpp lines 112-149: recurse
into every non-null child in slot order (threading the global RNG and the
`mHeight` member); if no child exists, sprout children in slots 0 and 1
(slot 2 is a commented-out code path in the source) and raise `mHeight` to
`pHeight` when it exceeds it. -/
def growB (rng : ℕ → ℕ) (b : Branch) (h k ht : ℕ) : GRes Branch :=
  match b with
  | .mk p c0 c1 c2 =>
    if c0.isNode || c1.isNode || c2.isNode then
      let r0 := growP rng c0 (h + 1) k ht
      let r1 := growP rng c1 (h + 1) r0.k r0.ht
      let r2 := growP rng c2 (h + 1) r1.k r1.ht
      ⟨.mk p r0.val r1.val r2.val, r2.k, r2.ht, r0.tr ++ r1.tr ++ r2.tr⟩
    else
      let b0 := shiftX (allocBranch rng k p h) (-((60 : ℤ) / h))
      let b1 := shiftX (allocBranch rng (k + 2) p h) ((30 : ℤ) / h)
      ⟨.mk p (.node b0) (.node b1) .null, k + 4,
        if h > ht then h else ht, [h, h]⟩

def growP (rng : ℕ → ℕ) (p : BrPtr) (h k ht : ℕ) : GRes BrPtr :=
  match p with
  | .null => ⟨.null, k, ht, []⟩
  | .node b =>
      let r := growB rng b h k ht
      ⟨.node r.val, r.k, r.ht, r.tr⟩

end

/-- A branch subtree is a perfect binary tree of the given depth with the
third child slot unused: this is the shape invariant that `grow_branch`
preserves, and every reachable tree satisfies it. -/
inductive perfect : ℕ → Branch → Prop where
  | leaf (p : Pt) : perfect 1 (.mk p .null .null .null)
  | node (p : Pt) (d : ℕ) (a b : Branch) :
      perfect d a → perfect d b → perfect (d + 1) (.mk p (.node a) (.node b) .null)

theorem growB_leaf_eq (rng : ℕ → ℕ) (p : Pt) (h k ht : ℕ) :
    growB rng (Branch.mk p .null .null .null) h k ht =
      ⟨Branch.mk p (.node (shiftX (allocBranch rng k p h) (-((60 : ℤ) / h))))
          (.node (shiftX (allocBranch rng (k + 2) p h) ((30 : ℤ) / h))) .null,
        k + 4, if h > ht then h else ht, [h, h]⟩ := rfl

theorem growB_node_eq (rng : ℕ → ℕ) (p : Pt) (a b : Branch) (h k ht : ℕ) :
    growB rng (Branch.mk p (.node a) (.node b) .null) h k ht =
      ⟨Branch.mk p (.node (growB rng a (h + 1) k ht).val)
          (.node (growB rng b (h + 1) (growB rng a (h + 1) k ht).k
              (growB rng a (h + 1) k ht).ht).val) .null,
        (growB rng b (h + 1) (growB rng a (h + 1) k ht).k
            (growB rng a (h + 1) k ht).ht).k,
        (growB rng b (h + 1) (growB rng a (h + 1) k ht).k
            (growB rng a (h + 1) k ht).ht).ht,
        ((growB rng a (h + 1) k ht).tr ++
          (growB rng b (h + 1) (growB rng a (h + 1) k ht).k
              (growB rng a (h + 1) k ht).ht).tr) ++ []⟩ := rfl

theorem grow_perfect (rng : ℕ → ℕ) {d : ℕ} {b : Branch} (hp : perfect d b) :
    ∀ h k ht, perfect (d + 1) (growB rng b h k ht).val ∧
      (growB rng b h k ht).ht = max ht (h + d - 1) ∧
      ∀ x ∈ (growB rng b h k ht).tr, x = h + d - 1 := by
  induction hp with
  | leaf p =>
    intro h k ht
    rw [growB_leaf_eq]
    refine ⟨?_, ?_, ?_⟩
    · simp only [allocBranch, shiftX]
      exact perfect.node _ 1 _ _ (perfect.leaf _) (perfect.leaf _)
    · simp only [Nat.add_sub_cancel]
      split <;> omega
    · simp
  | node p d a b ha hb iha ihb =>
    intro h k ht
    rw [growB_node_eq]
    obtain ⟨pa, ka, ta⟩ := iha (h + 1) k ht
    obtain ⟨pb, kb, tb⟩ :=
      ihb (h + 1) (growB rng a (h + 1) k ht).k (growB rng a (h + 1) k ht).ht
    refine ⟨perfect.node _ _ _ _ pa pb, ?_, ?_⟩
    · show (growB rng b (h + 1) _ _).ht = _
      rw [kb, ka]
      have h1 : h + 1 + d - 1 = h + d := by omega
      have h2 : h + (d + 1) - 1 = h + d := by omega
      rw [h1, h2, Nat.max_assoc, Nat.max_self]
    · intro x hx
      simp only [List.append_nil, List.mem_append] at hx
      have h2 : h + (d + 1) - 1 = h + d := by omega
      rw [h2]
      rcases hx with hx | hx
      · have := ta x hx; omega
      · have := tb x hx; omega

/- ### Drawing-surface operations

One constructor per drawing-surface primitive the program uses
(`PicoGraphics` / `DVDisplay` calls).  `treeRender i` stands for the call
`mForest[i]->render(mTimeOfDay)`, i.e. the whole recursive line/circle
sequence a tree emits.  Update functions return the list of operations they
issue, so "touches the drawing surface" is observable in the model. -/
inductive DrawOp where
  | setDepth (d : ℕ)
  | setPen
  | line (a b : Pt)
  | rect (x y w h : ℤ)
  | text (pos : Pt)
  | treeRender (slot : ℕ)
  | setSprite (id : ℕ)
  deriving DecidableEq, Repr

/- ### The Tree, `tree.cpp` -/

structure TreeSt where
  origin : Pt
  trunk : Branch
  height : ℕ
  age : ℕ

/-- Translation of `Tree::Tree`, tree.cpp lines 33-56: random origin on the ground band, a
near-vertical trunk with no children, `mHeight = 1`, `mAge = 1`.  Three RNG
draws, in source order: origin.y, origin.x, trunk end-point y. -/
def newTree (rng : ℕ → ℕ) (k : ℕ) : TreeSt :=
  let oy : ℤ := (SCREEN_HEIGHT : ℤ) - (GROUND_HEIGHT / 2 : ℕ) - (rng k % GROUND_HEIGHT : ℕ)
  let ox : ℤ := 1 + (rng (k + 1) % (SCREEN_WIDTH - 2) : ℕ)
  { origin := ⟨ox, oy⟩,
    trunk := .mk ⟨ox, oy - (SCREEN_HEIGHT / 6 : ℕ) - (rng (k + 2) % (SCREEN_HEIGHT / 8) : ℕ)⟩
      .null .null .null,
    height := 1, age := 1 }

structure TreeUpd where
  t : TreeSt
  k : ℕ
  tr : List ℕ
  draws : List DrawOp

/-- Translation of `Tree::update`, tree.cpp lines 89-104: increment the age; when the new
age is below `AGE_GROWTH` and a multiple of 4, grow from the trunk at depth
1.  The function issues no drawing operations (`draws = []` is the
translation of its body, which contains no graphics calls). -/
def treeUpdate (rng : ℕ → ℕ) (k : ℕ) (t : TreeSt) : TreeUpd :=
  let age := t.age + 1
  if age < AGE_GROWTH ∧ age % 4 = 0 then
    let g := growB rng t.trunk 1 k t.height
    ⟨{ t with trunk := g.val, height := g.ht, age := age }, g.k, g.tr, []⟩
  else
    ⟨{ t with age := age }, k, [], []⟩

/-- Translation of `Tree::is_dead`, tree.cpp lines 237-240: `return this->mAge > AGE_DEATH;` -/
def isDead (t : TreeSt) : Bool := decide (AGE_DEATH < t.age)

/-- The depth of the (perfect) branch structure of a tree of the given age:
one growth event has happened at each past age that was a multiple of 4
below `AGE_GROWTH`, and each event deepens the tree by one level. -/
def gdepth (a : ℕ) : ℕ := 1 + min (a / 4) 4

/-- A tree as constructed and then updated `n` times.  Each constructor /
update call receives its own arbitrary RNG stream (`rngs i`), which covers
every possible draw sequence of the global hardware RNG. -/
def treeIter (rngs : ℕ → ℕ → ℕ) : ℕ → TreeSt
  | 0 => newTree (rngs 0) 0
  | n + 1 => (treeUpdate (rngs (n + 1)) 0 (treeIter rngs n)).t

theorem treeIter_inv (rngs : ℕ → ℕ → ℕ) (n : ℕ) :
    (treeIter rngs n).age = n + 1 ∧
      perfect (gdepth (n + 1)) (treeIter rngs n).trunk := by
  induction n with
  | zero =>
    constructor
    · rfl
    · show perfect (gdepth 1) (Branch.mk _ .null .null .null)
      have : gdepth 1 = 1 := by norm_num [gdepth]
      rw [this]
      exact perfect.leaf _
  | succ n ih =>
    obtain ⟨hage, hperf⟩ := ih
    have step : treeIter rngs (n + 1) = (treeUpdate (rngs (n + 1)) 0 (treeIter rngs n)).t :=
      rfl
    rw [step, treeUpdate]
    split
    · rename_i hcond
      rw [hage] at hcond
      simp only [AGE_GROWTH] at hcond
      obtain ⟨hlt, hmod⟩ := hcond
      refine ⟨by simp [hage], ?_⟩
      have hg := (grow_perfect (rngs (n + 1)) hperf 1 0 (treeIter rngs n).height).1
      have hdep : gdepth (n + 1 + 1) = gdepth (n + 1) + 1 := by
        simp only [gdepth]
        omega
      rw [hdep]
      exact hg
    · rename_i hcond
      rw [hage] at hcond
      simp only [AGE_GROWTH] at hcond
      refine ⟨by simp [hage], ?_⟩
      have hdep : gdepth (n + 1 + 1) = gdepth (n + 1) := by
        simp only [gdepth]
        by_cases h20 : n + 1 + 1 < 20
        · have hmod : ¬ (n + 1 + 1) % 4 = 0 := by
            intro hm; exact hcond ⟨h20, hm⟩
          omega
        · omega
      rw [hdep]
      exact hperf

theorem self_mem_subs (b : Branch) : b ∈ Branch.subs b := by
  cases b with
  | mk p c0 c1 c2 => simp [Branch.subs]

theorem perfect_subs {d : ℕ} {b : Branch} (hp : perfect d b) :
    ∀ x ∈ Branch.subs b,
      (Branch.childCount x = 0 ∨ Branch.childCount x = 2) ∧ Branch.slot2 x = .null := by
  induction hp with
  | leaf p =>
    intro x hx
    simp only [Branch.subs, BrPtr.subs, List.append_nil, List.mem_cons,
      List.not_mem_nil, or_false] at hx
    subst hx
    exact ⟨Or.inl rfl, rfl⟩
  | node p d a b ha hb iha ihb =>
    intro x hx
    simp only [Branch.subs, BrPtr.subs, List.append_nil, List.mem_cons,
      List.mem_append] at hx
    rcases hx with hx | hx | hx
    · subst hx
      exact ⟨Or.inr rfl, rfl⟩
    · exact iha x hx
    · exact ihb x hx

/-- Claim C4: every branch of every Tree reachable by any sequence of
`update()` calls from construction has either 0 or exactly 2 non-null
children, and the third child slot (index 2 of the `BRANCHES_MAX = 3`
slots) is always null. -/
theorem c4_branch_children (rngs : ℕ → ℕ → ℕ) (n : ℕ) :
    ∀ x ∈ Branch.subs (treeIter rngs n).trunk,
      (Branch.childCount x = 0 ∨ Branch.childCount x = 2) ∧
        Branch.slot2 x = BrPtr.null :=
  perfect_subs (treeIter_inv rngs n).2

/-- Witness for C4 at a concrete input: the trunk of a freshly constructed
tree (all RNG draws 0) is one of its own branches and satisfies the
property. -/
theorem c4_branch_children_witness :
    (treeIter (fun _ _ => 0) 0).trunk ∈
        Branch.subs (treeIter (fun _ _ => 0) 0).trunk ∧
      ((Branch.childCount (treeIter (fun _ _ => 0) 0).trunk = 0 ∨
          Branch.childCount (treeIter (fun _ _ => 0) 0).trunk = 2) ∧
        Branch.slot2 (treeIter (fun _ _ => 0) 0).trunk = BrPtr.null) :=
  ⟨self_mem_subs _,
    c4_branch_children (fun _ _ => 0) 0 _ (self_mem_subs _)⟩

/-- Claim C5: a Tree's recorded height starts at 1 at construction and is
monotonically non-decreasing across every `update()` call, for every RNG
stream. -/
theorem c5_height_monotone (rngs : ℕ → ℕ → ℕ) (n : ℕ) :
    (treeIter rngs 0).height = 1 ∧
      (treeIter rngs n).height ≤ (treeIter rngs (n + 1)).height := by
  refine ⟨rfl, ?_⟩
  have hperf := (treeIter_inv rngs n).2
  have step : treeIter rngs (n + 1) = (treeUpdate (rngs (n + 1)) 0 (treeIter rngs n)).t :=
    rfl
  rw [step, treeUpdate]
  split
  · show (treeIter rngs n).height ≤
      (growB (rngs (n + 1)) (treeIter rngs n).trunk 1 0 (treeIter rngs n).height).ht
    rw [(grow_perfect (rngs (n + 1)) hperf 1 0 (treeIter rngs n).height).2.1]
    exact le_max_left _ _
  · exact le_refl _

/-- Claim C6: `is_dead()` returns true iff the tree's age strictly exceeds
`AGE_DEATH = 80`; age starts at 1 and each `update()` adds exactly 1, so
after `n` updates the age is `n + 1` and `is_dead()` is false for `n < 80`
and true for `n ≥ 80` — the growing/mature/dead phases occur strictly in
that order. -/
theorem c6_death_threshold (rngs : ℕ → ℕ → ℕ) (n : ℕ) :
    (∀ t : TreeSt, isDead t = true ↔ AGE_DEATH < t.age) ∧
      (treeIter rngs n).age = n + 1 ∧
      (isDead (treeIter rngs n) = true ↔ 80 ≤ n) := by
  refine ⟨fun t => by simp [isDead], (treeIter_inv rngs n).1, ?_⟩
  have hage := (treeIter_inv rngs n).1
  simp only [isDead, hage, AGE_DEATH, decide_eq_true_eq]
  omega

/-- Claim C8: every `pHeight` value reaching `Tree::alloc_branch` during an
`update()` of any reachable tree lies in `[1, 4]`, so the divisors
`60 / pHeight` and `(SCREEN_HEIGHT / 4) / pHeight` used in the division and
modulo operations there are strictly positive: no division or modulo by
zero occurs. -/
theorem c8_alloc_divisors (rngs : ℕ → ℕ → ℕ) (rng : ℕ → ℕ) (k n : ℕ) :
    ∀ h ∈ (treeUpdate rng k (treeIter rngs n)).tr,
      1 ≤ h ∧ h ≤ 4 ∧ 0 < 60 / h ∧ 0 < SCREEN_HEIGHT / 4 / h := by
  intro h hmem
  obtain ⟨hage, hperf⟩ := treeIter_inv rngs n
  rw [treeUpdate] at hmem
  by_cases hcond :
      (treeIter rngs n).age + 1 < AGE_GROWTH ∧ ((treeIter rngs n).age + 1) % 4 = 0
  · rw [if_pos hcond] at hmem
    have hg := (grow_perfect rng hperf 1 k (treeIter rngs n).height).2.2 h hmem
    rw [hage] at hcond
    simp only [AGE_GROWTH] at hcond
    have hd1 : 1 ≤ gdepth (n + 1) := by simp only [gdepth]; omega
    have hd4 : gdepth (n + 1) ≤ 4 := by simp only [gdepth]; omega
    have hh1 : 1 ≤ h := by omega
    have hh4 : h ≤ 4 := by omega
    refine ⟨hh1, hh4, ?_, ?_⟩
    · interval_cases h <;> decide
    · interval_cases h <;> decide
  · rw [if_neg hcond] at hmem
    simp at hmem

/- ### The World (Scene orchestrator), `world.cpp`

State fields of `World` that the claims observe.  The floating-point HSV
colour snapshots (`mGroundFG/BG`, `mSkyFG/BG`) and the float-valued
sun/moon locations are not carried in the state: no claim observes their
values, and the only reads of the colour snapshots — the equality
comparisons in `render()` — are abstracted as the oracle booleans `gdiff`
(ground colour differs) and `sdiff` (sky colour differs) passed to
`worldRender`. -/
structure WS where
  timeOfDay : ℕ
  titleOffset : ℤ
  redrawSkyFG : Bool
  redrawSkyBG : Bool
  redrawForestFG : Bool
  redrawForestBG : Bool
  forest : List (Option TreeSt)
  cloudActive : Bool
  cloudX : ℤ
  cloudY : ℤ

/-- Number of occupied forest slots. -/
def countSome (f : List (Option TreeSt)) : ℕ := f.countP Option.isSome

/-- Index of the lowest free (null) forest slot, if any. -/
def firstNone : List (Option TreeSt) → Option ℕ
  | [] => none
  | none :: _ => some 0
  | some _ :: rest => (firstNone rest).map (· + 1)

/-- The spawn loop of `World::update`, world.cpp lines 207-216: walk the
slots in index order and put the new tree in the first null one, stopping
there; report whether a slot was found. -/
def spawnFirstFree (t : TreeSt) : List (Option TreeSt) → List (Option TreeSt) × Bool
  | [] => ([], false)
  | none :: rest => (some t :: rest, true)
  | some u :: rest =>
      let r := spawnFirstFree t rest
      (some u :: r.1, r.2)

/-- Result of the per-tree update loop of `World::update` (world.cpp lines
188-201): the updated forest, the RNG draw counter, the four redraw flags,
whether any tree died (instrumentation for C2), the `alloc_branch` height
trace and the drawing operations issued by the `Tree::update` calls. -/
structure PassRes where
  forest : List (Option TreeSt)
  k : ℕ
  skyFG : Bool
  skyBG : Bool
  forestFG : Bool
  forestBG : Bool
  died : Bool
  tr : List ℕ
  draws : List DrawOp

/-- The per-tree update loop, world.cpp lines 188-201: update every live
tree; a tree that then reports death is deleted (slot becomes null) and
both sky flags are set; for every live slot both forest flags are set. -/
def forestPass (rng : ℕ → ℕ) :
    List (Option TreeSt) → ℕ → Bool → Bool → Bool → Bool → PassRes
  | [], k, sF, sB, fF, fB => ⟨[], k, sF, sB, fF, fB, false, [], []⟩
  | none :: rest, k, sF, sB, fF, fB =>
      let r := forestPass rng rest k sF sB fF fB
      { r with forest := none :: r.forest }
  | some t :: rest, k, sF, sB, _fF, _fB =>
      let u := treeUpdate rng k t
      let dead := isDead u.t
      let r := forestPass rng rest u.k (sF || dead) (sB || dead) true true
      { r with forest := (if dead then none else some u.t) :: r.forest,
               died := dead || r.died,
               tr := u.tr ++ r.tr,
               draws := u.draws ++ r.draws }

/-- Result of the spawn block (world.cpp lines 203-217). -/
structure SpawnRes where
  forest : List (Option TreeSt)
  k : ℕ
  forestFG : Bool
  forestBG : Bool
  spawned : Bool

/-- The spawn block of `World::update`, world.cpp lines 203-217: one RNG
draw decides (chance 1/15) whether to try spawning; on success the new tree
(3 construction draws) goes into the first free slot and both forest flags
are set; with no free slot the attempt does nothing. -/
def spawnStep (rng : ℕ → ℕ) (k : ℕ) (f : List (Option TreeSt)) (fF fB : Bool) :
    SpawnRes :=
  if rng k % 15 = 0 then
    let r := spawnFirstFree (newTree rng (k + 1)) f
    if r.2 then ⟨r.1, k + 4, true, true, true⟩
    else ⟨f, k + 1, fF, fB, false⟩
  else ⟨f, k + 1, fF, fB, false⟩

/-- Result of the cloud block (world.cpp lines 228-265). -/
structure CloudRes where
  active : Bool
  x : ℤ
  y : ℤ
  k : ℕ

/-- The cloud block of `World::update`, world.cpp lines 228-265: an active
cloud jitters vertically (clamped to `[0, SCREEN_HEIGHT/2]`) and drifts
right by 2, deactivating past the right edge; an inactive cloud activates
with chance 1/300 at `x = -64` and a random height in the upper half. -/
def cloudStep (rng : ℕ → ℕ) (k : ℕ) (active : Bool) (x y : ℤ) : CloudRes :=
  if active then
    let y1 : ℤ :=
      if rng k % 2 = 0 then
        let ny := y - (rng (k + 1) % 2 : ℕ)
        if ny < 0 then 0 else ny
      else
        let ny := y + (rng (k + 1) % 2 : ℕ)
        if ny > (SCREEN_HEIGHT / 2 : ℕ) then (SCREEN_HEIGHT / 2 : ℕ) else ny
    let x1 := x + 2
    if x1 > (SCREEN_WIDTH : ℤ) then ⟨false, x1, y1, k + 2⟩
    else ⟨true, x1, y1, k + 2⟩
  else
    if rng k % 300 = 0 then ⟨true, -64, (rng (k + 1) % (SCREEN_HEIGHT / 2) : ℕ), k + 2⟩
    else ⟨false, x, y, k + 1⟩

/-- Result of `World::update`: new state, RNG counter, the drawing
operations issued (`trace`), and — instrumentation for C2/C9 — whether any
tree died and whether one was spawned during the call. -/
structure UpdRes where
  s : WS
  k : ℕ
  trace : List DrawOp
  died : Bool
  spawned : Bool

/-- Translation of `World::update`, world.cpp lines 155-269, in source order: advance the
time-of-day with wrap (`tStep`); swap the colour snapshots (values not
modelled); promote the back redraw flags to the front and clear the back
ones; scroll the title; on ticks where the new time-of-day is a multiple of
60, run the per-tree update loop and then the spawn block; recompute the
sun/moon positions (pure float functions `sunX`/`moonX`, no state the
claims observe beyond those definitions); run the cloud block.  The body
contains no drawing-surface call, so the only operations in `trace` are
those of the `Tree::update` calls. -/
def worldUpdate (rng : ℕ → ℕ) (k : ℕ) (titleLength : ℤ) (s : WS) : UpdRes :=
  let tod := tStep s.timeOfDay
  let skyFG := s.redrawSkyBG
  let forestFG := s.redrawForestBG
  let off0 := s.titleOffset - 1
  let off := if off0 + titleLength < 0 then (SCREEN_WIDTH : ℤ) else off0
  if tod % 60 = 0 then
    let p := forestPass rng s.forest k skyFG false forestFG false
    let sp := spawnStep rng p.k p.forest p.forestFG p.forestBG
    let c := cloudStep rng sp.k s.cloudActive s.cloudX s.cloudY
    ⟨⟨tod, off, p.skyFG, p.skyBG, sp.forestFG, sp.forestBG, sp.forest,
        c.active, c.x, c.y⟩, c.k, p.draws, p.died, sp.spawned⟩
  else
    let c := cloudStep rng k s.cloudActive s.cloudX s.cloudY
    ⟨⟨tod, off, skyFG, false, forestFG, false, s.forest,
        c.active, c.x, c.y⟩, c.k, [], false, false⟩

/-- The ground repaint of `World::render`, world.cpp lines 294-307: one
`set_pen` and one `line` per row of the ground band, after a `set_depth`. -/
def groundOps : List DrawOp :=
  DrawOp.setDepth 1 ::
    (List.range (SCREEN_HEIGHT - GROUND_LEVEL)).flatMap (fun i =>
      [DrawOp.setPen,
       DrawOp.line ⟨0, (GROUND_LEVEL + i : ℕ)⟩ ⟨(SCREEN_WIDTH : ℕ), (GROUND_LEVEL + i : ℕ)⟩])

/-- The forest repaint loop of `World::render`, world.cpp lines 365-371:
`mForest[i]->render(mTimeOfDay)` for every live slot, in slot order;
`i` is the slot index (`treeOps` is called with the starting index). -/
def treeOps : ℕ → List (Option TreeSt) → List DrawOp
  | _, [] => []
  | i, none :: rest => treeOps (i + 1) rest
  | i, some _ :: rest => DrawOp.treeRender i :: treeOps (i + 1) rest

/-- Translation of `World::render`, world.cpp lines 279-391, in source order.  `gdiff` /
`sdiff` are the oracle outcomes of the float colour comparisons (ground
colour vs `mGroundFG`, sky colour vs `mSkyFG`): the redraw conditions are
`mRedrawSkyFG || colour differs` exactly as in the source (note the ground
block tests the *sky* front flag).  Ground repaint: sets both forest flags.
Sky repaint: sets both forest flags, clears the sky front flag.  Title bar:
always drawn.  Forest: drawn only when the forest front flag is set, which
is then cleared.  Sun/moon sprites always, cloud sprites when active. -/
def worldRender (gdiff sdiff : Bool) (titleLength : ℤ) (s : WS) :
    WS × List DrawOp :=
  let gc := s.redrawSkyFG || gdiff
  let fF1 := if gc then true else s.redrawForestFG
  let fB1 := if gc then true else s.redrawForestBG
  let ops1 : List DrawOp := if gc then groundOps else []
  let sc := s.redrawSkyFG || sdiff
  let fF2 := if sc then true else fF1
  let fB2 := if sc then true else fB1
  let sF2 := if sc then false else s.redrawSkyFG
  let ops2 : List DrawOp :=
    if sc then [.setDepth 0, .setPen, .rect 0 0 (SCREEN_WIDTH : ℕ) (GROUND_LEVEL : ℕ)]
    else []
  let ops3 : List DrawOp :=
    [.setPen, .setDepth 0, .rect (s.titleOffset - 1) 1 (titleLength + 2) 16,
     .setPen, .setDepth 1, .text ⟨s.titleOffset, 1⟩]
  let fF3 := if fF2 then false else fF2
  let ops4 : List DrawOp :=
    if fF2 then DrawOp.setDepth 1 :: treeOps 0 s.forest else []
  let ops5 : List DrawOp := [.setSprite 0, .setSprite 1]
  let ops6 : List DrawOp := if s.cloudActive then [.setSprite 2, .setSprite 3] else []
  ({ s with redrawSkyFG := sF2, redrawForestFG := fF3, redrawForestBG := fB2 },
    ops1 ++ ops2 ++ ops3 ++ ops4 ++ ops5 ++ ops6)

theorem treeUpdate_draws (rng : ℕ → ℕ) (k : ℕ) (t : TreeSt) :
    (treeUpdate rng k t).draws = [] := by
  rw [treeUpdate]; split <;> rfl

theorem forestPass_draws (rng : ℕ → ℕ) (l : List (Option TreeSt)) :
    ∀ k sF sB fF fB, (forestPass rng l k sF sB fF fB).draws = [] := by
  induction l with
  | nil => intro k sF sB fF fB; rfl
  | cons hd tl ih =>
    intro k sF sB fF fB
    cases hd with
    | none => simpa [forestPass] using ih k sF sB fF fB
    | some t => simp [forestPass, treeUpdate_draws, ih]

theorem forestPass_forestFlags (rng : ℕ → ℕ) (l : List (Option TreeSt)) :
    ∀ k sF sB fF fB,
      (forestPass rng l k sF sB fF fB).forestFG = (fF || l.any Option.isSome) ∧
      (forestPass rng l k sF sB fF fB).forestBG = (fB || l.any Option.isSome) := by
  induction l with
  | nil => intro k sF sB fF fB; simp [forestPass]
  | cons hd tl ih =>
    intro k sF sB fF fB
    cases hd with
    | none => simp [forestPass, ih k sF sB fF fB]
    | some t =>
      have h := ih (treeUpdate rng k t).k (sF || isDead (treeUpdate rng k t).t)
        (sB || isDead (treeUpdate rng k t).t) true true
      simp [forestPass, h.1, h.2]

theorem forestPass_died_imp (rng : ℕ → ℕ) (l : List (Option TreeSt)) :
    ∀ k sF sB fF fB, (forestPass rng l k sF sB fF fB).died = true →
      (forestPass rng l k sF sB fF fB).forestFG = true ∧
      (forestPass rng l k sF sB fF fB).forestBG = true := by
  induction l with
  | nil => intro k sF sB fF fB h; simp [forestPass] at h
  | cons hd tl ih =>
    intro k sF sB fF fB _
    cases hd with
    | none =>
      have h' : (forestPass rng tl k sF sB fF fB).died = true := by
        simpa [forestPass] using ‹_›
      simpa [forestPass] using ih k sF sB fF fB h'
    | some t =>
      have h := forestPass_forestFlags rng tl (treeUpdate rng k t).k
        (sF || isDead (treeUpdate rng k t).t) (sB || isDead (treeUpdate rng k t).t)
        true true
      simp [forestPass, h.1, h.2]

theorem forestPass_count (rng : ℕ → ℕ) (l : List (Option TreeSt)) :
    ∀ k sF sB fF fB,
      countSome (forestPass rng l k sF sB fF fB).forest ≤ countSome l := by
  induction l with
  | nil => intro k sF sB fF fB; exact le_refl _
  | cons hd tl ih =>
    intro k sF sB fF fB
    cases hd with
    | none =>
      simpa [forestPass, countSome, List.countP_cons] using
        ih k sF sB fF fB
    | some t =>
      have h := ih (treeUpdate rng k t).k (sF || isDead (treeUpdate rng k t).t)
        (sB || isDead (treeUpdate rng k t).t) true true
      simp only [forestPass, countSome, List.countP_cons] at h ⊢
      split <;> simp <;> omega

theorem spawnFirstFree_count (t : TreeSt) (f : List (Option TreeSt)) :
    countSome (spawnFirstFree t f).1 ≤ countSome f + 1 := by
  induction f with
  | nil => simp [spawnFirstFree, countSome]
  | cons hd tl ih =>
    cases hd with
    | none => simp [spawnFirstFree, countSome, List.countP_cons]
    | some u =>
      simp only [spawnFirstFree, countSome, List.countP_cons] at ih ⊢
      omega

theorem spawnStep_count (rng : ℕ → ℕ) (k : ℕ) (f : List (Option TreeSt)) (fF fB : Bool) :
    countSome (spawnStep rng k f fF fB).forest ≤ countSome f + 1 := by
  simp only [spawnStep]
  split
  · split
    · exact spawnFirstFree_count _ f
    · simp
  · simp

theorem spawnStep_flags (rng : ℕ → ℕ) (k : ℕ) (f : List (Option TreeSt)) (fF fB : Bool) :
    (spawnStep rng k f fF fB).forestFG = (fF || (spawnStep rng k f fF fB).spawned) ∧
    (spawnStep rng k f fF fB).forestBG = (fB || (spawnStep rng k f fF fB).spawned) := by
  simp only [spawnStep]
  split
  · split <;> simp
  · simp

theorem firstNone_of_allSome (f : List (Option TreeSt))
    (h : ∀ o ∈ f, o.isSome = true) : firstNone f = none := by
  induction f with
  | nil => rfl
  | cons hd tl ih =>
    cases hd with
    | none =>
      have := h none (by simp)
      simp at this
    | some u =>
      simp only [firstNone]
      rw [ih (fun o ho => h o (by simp [ho]))]
      rfl

theorem spawnFirstFree_of_allSome (t : TreeSt) (f : List (Option TreeSt))
    (h : ∀ o ∈ f, o.isSome = true) : spawnFirstFree t f = (f, false) := by
  induction f with
  | nil => rfl
  | cons hd tl ih =>
    cases hd with
    | none =>
      have := h none (by simp)
      simp at this
    | some u =>
      simp only [spawnFirstFree]
      rw [ih (fun o ho => h o (by simp [ho]))]

theorem spawnFirstFree_at_firstNone (t : TreeSt) (f : List (Option TreeSt)) :
    ∀ i, firstNone f = some i →
      spawnFirstFree t f = (f.set i (some t), true) ∧
        f[i]? = some none ∧ ∀ j, j < i → ∃ u, f[j]? = some (some u) := by
  induction f with
  | nil => intro i h; simp [firstNone] at h
  | cons hd tl ih =>
    intro i h
    cases hd with
    | none =>
      simp only [firstNone, Option.some.injEq] at h
      subst h
      refine ⟨rfl, by simp, ?_⟩
      intro j hj
      omega
    | some u =>
      simp only [firstNone, Option.map_eq_some'] at h
      obtain ⟨j, hj, rfl⟩ := h
      obtain ⟨h1, h2, h3⟩ := ih j hj
      refine ⟨?_, by simpa using h2, ?_⟩
      · simp only [spawnFirstFree, h1, List.set_cons_succ]
      · intro m hm
        cases m with
        | zero => exact ⟨u, by simp⟩
        | succ m => simpa using h3 m (by omega)

theorem any_isSome_of_getElem (f : List (Option TreeSt)) (i : ℕ) (t : TreeSt)
    (h : f[i]? = some (some t)) : f.any Option.isSome = true := by
  have hmem : (some t : Option TreeSt) ∈ f := by
    have := List.getElem?_eq_some_iff.mp h
    obtain ⟨hlt, heq⟩ := this
    exact heq ▸ List.getElem_mem hlt
  exact List.any_eq_true.mpr ⟨some t, hmem, rfl⟩

theorem treeRender_not_mem_treeOps (f : List (Option TreeSt)) :
    ∀ j m, m < j → DrawOp.treeRender m ∉ treeOps j f := by
  induction f with
  | nil => intro j m _; simp [treeOps]
  | cons hd tl ih =>
    intro j m hm
    cases hd with
    | none => simpa [treeOps] using ih (j + 1) m (by omega)
    | some t =>
      simp only [treeOps, List.mem_cons]
      rintro (h | h)
      · simp only [DrawOp.treeRender.injEq] at h
        omega
      · exact ih (j + 1) m (by omega) h

theorem treeOps_count_one (f : List (Option TreeSt)) :
    ∀ i j t, f[i]? = some (some t) →
      (treeOps j f).count (DrawOp.treeRender (j + i)) = 1 := by
  induction f with
  | nil => intro i j t h; simp at h
  | cons hd tl ih =>
    intro i j t h
    cases i with
    | zero =>
      simp only [List.getElem?_cons_zero, Option.some.injEq] at h
      subst h
      simp only [treeOps, Nat.add_zero]
      rw [List.count_cons_self,
        List.count_eq_zero_of_not_mem (treeRender_not_mem_treeOps tl (j + 1) j (by omega))]
    | succ i =>
      cases hd with
      | none =>
        simp only [List.getElem?_cons_succ] at h
        simp only [treeOps]
        rw [show j + (i + 1) = (j + 1) + i by omega]
        exact ih i (j + 1) t h
      | some u =>
        simp only [List.getElem?_cons_succ] at h
        simp only [treeOps]
        rw [List.count_cons_of_ne (by simp only [ne_eq, DrawOp.treeRender.injEq]; omega),
          show j + (i + 1) = (j + 1) + i by omega]
        exact ih i (j + 1) t h

theorem if_true_false_self (b : Bool) : (if b = true then false else b) = false := by
  cases b <;> simp

theorem worldRender_clears_forestFG (g d : Bool) (tl : ℤ) (s : WS) :
    (worldRender g d tl s).1.redrawForestFG = false := by
  simp only [worldRender]
  exact if_true_false_self _

theorem worldRender_count_treeRender (g d : Bool) (tl : ℤ) (s : WS)
    (hFG : s.redrawForestFG = true) (i : ℕ) (t : TreeSt)
    (hlive : s.forest[i]? = some (some t)) :
    (worldRender g d tl s).2.count (DrawOp.treeRender i) = 1 := by
  have hmemg : DrawOp.treeRender i ∉ groundOps := by
    simp [groundOps, List.mem_flatMap]
  have hcg : groundOps.count (DrawOp.treeRender i) = 0 :=
    List.count_eq_zero_of_not_mem hmemg
  have hto : (treeOps 0 s.forest).count (DrawOp.treeRender i) = 1 := by
    have := treeOps_count_one s.forest i 0 t hlive
    simpa using this
  simp only [worldRender, hFG, ite_self]
  cases hgc : (s.redrawSkyFG || g) <;> cases hsc : (s.redrawSkyFG || d) <;>
    cases hca : s.cloudActive <;>
    simp [List.count_append, List.count_cons, hcg, hto]

/-- Claim C7: `World::update()` (including the `Tree::update()` calls it
makes) issues no drawing-surface or display drawing operation: for every
starting state, RNG stream and title length, the trace of drawing
operations produced by `worldUpdate` is empty. -/
theorem c7_update_draws_nothing (rng : ℕ → ℕ) (k : ℕ) (tl : ℤ) (s : WS) :
    (worldUpdate rng k tl s).trace = [] := by
  simp only [worldUpdate]
  split
  · exact forestPass_draws rng s.forest k s.redrawSkyBG false s.redrawForestBG false
  · rfl

/-- Claim C10: on every `World::update()` call where the (just-incremented)
time-of-day counter is a multiple of 60 and at least one forest slot holds
a live tree, the forest redraw flags for both buffers are set true — even
when no tree died and none was spawned. -/
theorem c10_periodic_forest_repaint (rng : ℕ → ℕ) (k : ℕ) (tl : ℤ) (s : WS)
    (i : ℕ) (t : TreeSt) (h60 : tStep s.timeOfDay % 60 = 0)
    (hlive : s.forest[i]? = some (some t)) :
    (worldUpdate rng k tl s).s.redrawForestFG = true ∧
      (worldUpdate rng k tl s).s.redrawForestBG = true := by
  have hany := any_isSome_of_getElem s.forest i t hlive
  have hp := forestPass_forestFlags rng s.forest k s.redrawSkyBG false
    s.redrawForestBG false
  have hsp := spawnStep_flags rng
    (forestPass rng s.forest k s.redrawSkyBG false s.redrawForestBG false).k
    (forestPass rng s.forest k s.redrawSkyBG false s.redrawForestBG false).forest
    (forestPass rng s.forest k s.redrawSkyBG false s.redrawForestBG false).forestFG
    (forestPass rng s.forest k s.redrawSkyBG false s.redrawForestBG false).forestBG
  simp only [worldUpdate, h60, if_pos]
  constructor
  · rw [hsp.1, hp.1, hany]
    simp
  · rw [hsp.2, hp.2, hany]
    simp

/-- Claim C1, counterexample: starting from the construction-time value 0,
3600 `update()` ticks leave the time-of-day counter at 3600 — a reachable
value outside [0, 3600) — and not back at the starting value: both halves
of the claim fail.  (The source wrap test is `> 3600`, so the counter takes
the 3601 values 0..3600.) -/
theorem c1_time_of_day_cex :
    tStep^[3600] 0 = 3600 ∧ ¬ tStep^[3600] 0 < 3600 ∧ tStep^[3600] 0 ≠ 0 := by
  have h := tStep_from_zero 3600 (le_refl _)
  rw [h]
  refine ⟨rfl, by omega, by omega⟩

/-- Claim C1, amended: the time-of-day counter of every reachable World
state lies in the closed interval [0, 3600] (the wrap test `> 3600` admits
the value 3600), and applying `update()` exactly 3601 — not 3600 — times
returns the counter to any starting value in that interval.  `worldUpdate`
advances the counter by exactly one `tStep`. -/
theorem c1_time_of_day_amended :
    (∀ rng k tl s, (worldUpdate rng k tl s).s.timeOfDay = tStep s.timeOfDay) ∧
      (∀ t, t ≤ 3600 → tStep t ≤ 3600) ∧
      (∀ t, t ≤ 3600 → tStep^[3601] t = t) := by
  refine ⟨?_, tStep_le, tStep_period⟩
  intro rng k tl s
  simp only [worldUpdate]
  split <;> rfl

/-- Witness for the amended C1 at the concrete boundary value 3600. -/
theorem c1_time_of_day_witness :
    (3600 : ℕ) ≤ 3600 ∧ tStep 3600 ≤ 3600 ∧ tStep^[3601] 3600 = 3600 :=
  ⟨le_refl _, c1_time_of_day_amended.2.1 3600 (le_refl _),
    c1_time_of_day_amended.2.2 3600 (le_refl _)⟩

/-- Claim C2: if during a `World::update()` call any tree dies or a new
tree is spawned, the forest redraw-stale flag for the buffer about to be
rendered (`mRedrawForestFG`) is true immediately after that update returns,
it is still true when the next `render()` reads it and is cleared by the
end of that render, and that render repaints the forest exactly once (each
live slot's tree is drawn exactly once in its trace). -/
theorem c2_death_spawn_redraw (rng : ℕ → ℕ) (k : ℕ) (tl : ℤ) (s : WS)
    (g d : Bool)
    (hev : (worldUpdate rng k tl s).died = true ∨
      (worldUpdate rng k tl s).spawned = true) :
    (worldUpdate rng k tl s).s.redrawForestFG = true ∧
      (worldRender g d tl (worldUpdate rng k tl s).s).1.redrawForestFG = false ∧
      ∀ i t, (worldUpdate rng k tl s).s.forest[i]? = some (some t) →
        (worldRender g d tl (worldUpdate rng k tl s).s).2.count
          (DrawOp.treeRender i) = 1 := by
  have hFG : (worldUpdate rng k tl s).s.redrawForestFG = true := by
    by_cases h60 : tStep s.timeOfDay % 60 = 0
    · have hsp := spawnStep_flags rng
        (forestPass rng s.forest k s.redrawSkyBG false s.redrawForestBG false).k
        (forestPass rng s.forest k s.redrawSkyBG false s.redrawForestBG false).forest
        (forestPass rng s.forest k s.redrawSkyBG false s.redrawForestBG false).forestFG
        (forestPass rng s.forest k s.redrawSkyBG false s.redrawForestBG false).forestBG
      simp only [worldUpdate] at hev ⊢
      rw [if_pos h60] at hev ⊢
      rcases hev with hdied | hspawn
      · have hd := (forestPass_died_imp rng s.forest k s.redrawSkyBG false
          s.redrawForestBG false hdied).1
        show (spawnStep rng _ _ _ _).forestFG = true
        rw [hsp.1, hd]
        simp
      · show (spawnStep rng _ _ _ _).forestFG = true
        have hs : (spawnStep rng
            (forestPass rng s.forest k s.redrawSkyBG false s.redrawForestBG false).k
            (forestPass rng s.forest k s.redrawSkyBG false s.redrawForestBG false).forest
            (forestPass rng s.forest k s.redrawSkyBG false s.redrawForestBG false).forestFG
            (forestPass rng s.forest k s.redrawSkyBG false
              s.redrawForestBG false).forestBG).spawned = true := hspawn
        rw [hsp.1, hs]
        simp
    · simp only [worldUpdate] at hev
      rw [if_neg h60] at hev
      rcases hev with h | h <;> simp at h
  refine ⟨hFG, worldRender_clears_forestFG g d tl _, ?_⟩
  intro i t hlive
  exact worldRender_count_treeRender g d tl _ hFG i t hlive

/-- Claim C9: on any single `World::update()` call the forest gains at most
one tree; a spawn, when it happens, places the new tree into the lowest-
index free slot (`spawnFirstFree` writes exactly the `firstNone` slot,
every lower slot being occupied); when every slot is occupied the spawn
block (`spawnStep`) is a silent no-op that returns the forest and the
redraw flags unchanged; and the forest `worldUpdate` ends with on a
tree-tick is exactly the spawn block's output. -/
theorem c9_spawn_behaviour :
    (∀ rng k tl s,
        countSome (worldUpdate rng k tl s).s.forest ≤ countSome s.forest + 1) ∧
      (∀ rng k f fF fB, (∀ o ∈ f, o.isSome = true) →
        spawnStep rng k f fF fB = ⟨f, k + 1, fF, fB, false⟩) ∧
      (∀ t f i, firstNone f = some i →
        spawnFirstFree t f = (f.set i (some t), true) ∧
          f[i]? = some none ∧ ∀ j, j < i → ∃ u, f[j]? = some (some u)) ∧
      (∀ rng k tl s, tStep s.timeOfDay % 60 = 0 →
        (worldUpdate rng k tl s).s.forest =
          (spawnStep rng
            (forestPass rng s.forest k s.redrawSkyBG false s.redrawForestBG false).k
            (forestPass rng s.forest k s.redrawSkyBG false s.redrawForestBG false).forest
            (forestPass rng s.forest k s.redrawSkyBG false s.redrawForestBG false).forestFG
            (forestPass rng s.forest k s.redrawSkyBG false
              s.redrawForestBG false).forestBG).forest) := by
  refine ⟨?_, ?_, ?_, ?_⟩
  · intro rng k tl s
    simp only [worldUpdate]
    split
    · exact Nat.le_trans
        (spawnStep_count rng _ _ _ _)
        (Nat.add_le_add_right (forestPass_count rng s.forest k _ _ _ _) 1)
    · exact Nat.le_succ _
  · intro rng k f fF fB hall
    simp [spawnStep, spawnFirstFree_of_allSome (newTree rng (k + 1)) f hall]
  · intro t f i h
    exact spawnFirstFree_at_firstNone t f i h
  · intro rng k tl s h60
    simp only [worldUpdate]
    rw [if_pos h60]

/- ### Concrete inputs used by the witnesses -/

def rng0 : ℕ → ℕ := fun _ => 0

def ws0 : WS :=
  ⟨59, 0, false, false, false, false, List.replicate TREES_MAX none, false, 0, 0⟩

def ws1 : WS :=
  ⟨59, 0, false, false, false, false,
    some (newTree rng0 0) :: List.replicate 7 none, false, 0, 0⟩

def fullForest : List (Option TreeSt) :=
  List.replicate TREES_MAX (some (newTree rng0 0))

/-- Witness for C2 at a concrete input: with all RNG draws 0 and time-of-day
59, the update tick spawns a tree into slot 0, the forest front flag is true
afterwards, and the following render draws that tree exactly once and ends
with the flag cleared. -/
theorem c2_death_spawn_redraw_witness :
    (worldUpdate rng0 0 64 ws0).spawned = true ∧
      (worldUpdate rng0 0 64 ws0).s.forest[0]? = some (some (newTree rng0 1)) ∧
      (worldUpdate rng0 0 64 ws0).s.redrawForestFG = true ∧
      (worldRender false false 64 (worldUpdate rng0 0 64 ws0).s).1.redrawForestFG
        = false ∧
      (worldRender false false 64 (worldUpdate rng0 0 64 ws0).s).2.count
        (DrawOp.treeRender 0) = 1 := by
  have hspawn : (worldUpdate rng0 0 64 ws0).spawned = true := rfl
  have hlive : (worldUpdate rng0 0 64 ws0).s.forest[0]? =
      some (some (newTree rng0 1)) := rfl
  have hmain := c2_death_spawn_redraw rng0 0 64 ws0 false false (Or.inr hspawn)
  exact ⟨hspawn, hlive, hmain.1, hmain.2.1, hmain.2.2 0 (newTree rng0 1) hlive⟩

/-- Witness for C9 at concrete inputs: the count bound on a concrete update;
the no-op behaviour of the spawn block on a full forest; the lowest-slot
placement on an empty forest; and the tie-in on a concrete tree-tick. -/
theorem c9_spawn_behaviour_witness :
    countSome (worldUpdate rng0 0 64 ws0).s.forest ≤ countSome ws0.forest + 1 ∧
      spawnStep rng0 0 fullForest false false = ⟨fullForest, 1, false, false, false⟩ ∧
      (spawnFirstFree (newTree rng0 0) (List.replicate TREES_MAX (none : Option TreeSt)) =
          ((List.replicate TREES_MAX (none : Option TreeSt)).set 0
            (some (newTree rng0 0)), true) ∧
        (List.replicate TREES_MAX (none : Option TreeSt))[0]? = some none ∧
        ∀ j, j < 0 → ∃ u,
          (List.replicate TREES_MAX (none : Option TreeSt))[j]? = some (some u)) ∧
      (worldUpdate rng0 0 64 ws0).s.forest =
        (spawnStep rng0
          (forestPass rng0 ws0.forest 0 ws0.redrawSkyBG false
            ws0.redrawForestBG false).k
          (forestPass rng0 ws0.forest 0 ws0.redrawSkyBG false
            ws0.redrawForestBG false).forest
          (forestPass rng0 ws0.forest 0 ws0.redrawSkyBG false
            ws0.redrawForestBG false).forestFG
          (forestPass rng0 ws0.forest 0 ws0.redrawSkyBG false
            ws0.redrawForestBG false).forestBG).forest := by
  refine ⟨c9_spawn_behaviour.1 rng0 0 64 ws0,
    c9_spawn_behaviour.2.1 rng0 0 fullForest false false ?_,
    c9_spawn_behaviour.2.2.1 (newTree rng0 0) _ 0 rfl,
    c9_spawn_behaviour.2.2.2 rng0 0 64 ws0 (by decide)⟩
  intro o ho
  simp only [fullForest, List.mem_replicate] at ho
  rw [ho.2]
  rfl

/-- Witness for C10 at a concrete input: time-of-day 59 advances to 60 (a
multiple of 60), slot 0 holds a live tree, and the update sets both forest
redraw flags. -/
theorem c10_periodic_forest_repaint_witness :
    tStep ws1.timeOfDay % 60 = 0 ∧
      ws1.forest[0]? = some (some (newTree rng0 0)) ∧
      (worldUpdate rng0 0 64 ws1).s.redrawForestFG = true ∧
      (worldUpdate rng0 0 64 ws1).s.redrawForestBG = true := by
  have h60 : tStep ws1.timeOfDay % 60 = 0 := by decide
  have hlive : ws1.forest[0]? = some (some (newTree rng0 0)) := rfl
  have h := c10_periodic_forest_repaint rng0 0 64 ws1 0 (newTree rng0 0) h60 hlive
  exact ⟨h60, hlive, h.1, h.2⟩

/-- Witness for C8 at a concrete input: the third update of a fresh tree
(all RNG draws 0) reaches age 4 and sprouts at depth 1, so 1 is in the
alloc-height trace and the divisors are positive there. -/
theorem c8_alloc_divisors_witness :
    1 ∈ (treeUpdate (fun _ => 0) 0 (treeIter (fun _ _ => 0) 2)).tr ∧
      (1 ≤ 1 ∧ 1 ≤ 4 ∧ 0 < 60 / 1 ∧ 0 < SCREEN_HEIGHT / 4 / 1) := by
  have hmem : 1 ∈ (treeUpdate (fun _ => 0) 0 (treeIter (fun _ _ => 0) 2)).tr := by
    decide
  exact ⟨hmem, c8_alloc_divisors (fun _ _ => 0) (fun _ => 0) 0 2 1 hmem⟩
